import Mathlib

/-!
Verification of the data-analysis pipeline (CleanerAgent, AnalystAgent,
VisualizerAgent, and the LangGraph workflow of app.py) against its
specification.

The pandas DataFrame is embedded as a `Table`: an ordered list of named,
typed columns (numeric vs. object/categorical, fixed at load time as the
spec's data model states) together with a list of rows, where each cell is
a rational number, a string, or a missing value (NaN/None).  Floating-point
arithmetic is idealised as exact rational arithmetic; a float NaN produced
by an operation is modelled as `Option.none`.
-/

/-- Column dtype as pandas sees it: `numeric` matches
`select_dtypes(include=[number])`, `obj` matches
`select_dtypes(include=[object])` (the categorical columns). -/
inductive DType where
  | numeric
  | obj
deriving DecidableEq

/-- One cell of a DataFrame: a numeric value, a string, or a missing value. -/
inductive Cell where
  | num (q : ℚ)
  | str (s : String)
  | na
deriving DecidableEq

abbrev Row := List Cell

/-- A pandas DataFrame: named typed columns plus rows of cells. -/
structure Table where
  cols : List (String × DType)
  rows : List Row
deriving DecidableEq

def dtypesOf (t : Table) : List DType := t.cols.map Prod.snd

def colNames (t : Table) : List String := t.cols.map Prod.fst

/-- Indices and names of the numeric columns, in column order
(`df.select_dtypes(include=[number]).columns`). -/
def numericIdxs (t : Table) : List (ℕ × String) :=
  t.cols.enum.filterMap
    (fun p => if p.2.2 = DType.numeric then some (p.1, p.2.1) else none)

def numericCols (t : Table) : List String := (numericIdxs t).map Prod.snd

/-- Indices and names of the object (categorical) columns
(`df.select_dtypes(include=[object]).columns`). -/
def catIdxs (t : Table) : List (ℕ × String) :=
  t.cols.enum.filterMap
    (fun p => if p.2.2 = DType.obj then some (p.1, p.2.1) else none)

def catCols (t : Table) : List String := (catIdxs t).map Prod.snd

/-- Cell of row `r` in column `j`; out-of-range reads give a missing value
(rows of a well-formed table always have full length). -/
def cellAt (r : Row) (j : ℕ) : Cell := r.getD j Cell.na

/-- A cell conforms to its column dtype: numeric columns hold numbers or
NaN, object columns hold strings or NaN. -/
def cellConf (dt : DType) (c : Cell) : Bool :=
  match dt, c with
  | _, Cell.na => true
  | DType.numeric, Cell.num _ => true
  | DType.obj, Cell.str _ => true
  | _, _ => false

/-- Well-formed table: every row has one cell per column, and cells conform
to their column dtype (this is what `pd.read_csv` produces). -/
def WFTable (t : Table) : Prop :=
  ∀ r ∈ t.rows, r.length = t.cols.length ∧
    ∀ j < t.cols.length, cellConf ((dtypesOf t).getD j DType.obj) (cellAt r j) = true

instance (t : Table) : Decidable (WFTable t) := by
  unfold WFTable
  exact List.decidableBAll _ _

/-! ## Python `str.strip` (used by `df[col].str.strip()`) -/

/-- Strip from a character list: drop leading whitespace, then drop trailing
whitespace (via reverse). -/
def stripChars (l : List Char) : List Char :=
  ((l.dropWhile Char.isWhitespace).reverse.dropWhile Char.isWhitespace).reverse

/-- Python `str.strip()`. -/
def pyStrip (s : String) : String := String.mk (stripChars s.data)

/-- `Series.str.strip()` elementwise on an object column: strings are
trimmed, missing values stay missing, and a non-string value (which the
pandas `.str` accessor cannot handle) becomes NaN. -/
def stripCell : Cell → Cell
  | Cell.str s => Cell.str (pyStrip s)
  | Cell.na => Cell.na
  | Cell.num _ => Cell.na

def stripByType (dt : DType) (c : Cell) : Cell :=
  if dt = DType.obj then stripCell c else c

/-- The `for col in str_cols: df[col] = df[col].str.strip()` loop of
`clean_data`, acting on one row: strip exactly the object-column cells. -/
def stripRow (dts : List DType) (r : Row) : Row :=
  List.zipWith stripByType dts r

/-! ## `drop_duplicates` / `duplicated` (both with pandas default
`keep=first`: a row is a duplicate iff it equals some earlier row) -/

def dropDupAcc {α : Type} [DecidableEq α] (seen : List α) : List α → List α
  | [] => []
  | x :: xs =>
      if x ∈ seen then dropDupAcc seen xs
      else x :: dropDupAcc (x :: seen) xs

/-- `df.drop_duplicates()`: keep the first occurrence of every row value,
preserving order. -/
def dropDup {α : Type} [DecidableEq α] (l : List α) : List α := dropDupAcc [] l

def dupFlagCount {α : Type} [DecidableEq α] (seen : List α) : List α → ℕ
  | [] => 0
  | x :: xs => (if x ∈ seen then 1 else 0) + dupFlagCount (x :: seen) xs

/-- `df.duplicated().sum()`: the number of rows equal to an earlier row. -/
def duplicatedCount {α : Type} [DecidableEq α] (l : List α) : ℕ :=
  dupFlagCount [] l

/-- `df.dropna()` keeps a row iff no cell is missing. -/
def noNA (r : Row) : Bool := r.all (fun c => decide (c ≠ Cell.na))

/-! ## CleanerAgent -/

/-- The cleaning metadata dict returned by `CleanerAgent.clean_data`. -/
structure CleanMeta where
  original_rows : ℕ
  cleaned_rows : ℕ
  rows_removed : ℤ
  columns : List String
  dtypes : List DType
deriving DecidableEq

/-- Rows surviving `clean_data`: `drop_duplicates()`, then `dropna()`, then
`str.strip()` on every object column — in that order (analyst.py lines
12-18 of cleaner.py). -/
def cleanedRows (t : Table) : List Row :=
  (((dropDup t.rows).filter noNA).map (stripRow (dtypesOf t)))

/-- `CleanerAgent.clean_data` (cleaner.py lines 9-32): dedup, dropna, strip,
then package the cleaned frame with its metadata. -/
def clean_data (t : Table) : Table × CleanMeta :=
  let original_rows := t.rows.length
  let cleaned : Table := { cols := t.cols, rows := cleanedRows t }
  let cleaned_rows := cleaned.rows.length
  let rows_removed : ℤ := (original_rows : ℤ) - (cleaned_rows : ℤ)
  (cleaned,
    { original_rows := original_rows
      cleaned_rows := cleaned_rows
      rows_removed := rows_removed
      columns := colNames cleaned
      dtypes := dtypesOf cleaned })

/-- The validation report dict of `CleanerAgent.validate_data`. -/
structure ValidationReport where
  total_rows : ℕ
  total_columns : ℕ
  missing_values : List (String × ℕ)
  duplicate_rows : ℕ
  numeric_columns : List String
  categorical_columns : List String
deriving DecidableEq

/-- Per-column missing-value count (`df.isnull().sum()` for column `j`). -/
def missingCountAt (t : Table) (j : ℕ) : ℕ :=
  t.rows.countP (fun r => decide (cellAt r j = Cell.na))

/-- `CleanerAgent.validate_data` (cleaner.py lines 34-44). -/
def validate_data (t : Table) : ValidationReport :=
  { total_rows := t.rows.length
    total_columns := t.cols.length
    missing_values := t.cols.enum.map (fun p => (p.2.1, missingCountAt t p.1))
    duplicate_rows := duplicatedCount t.rows
    numeric_columns := numericCols t
    categorical_columns := catCols t }

/-! ## Basic lemmas about dedup and duplicate counting -/

theorem dropDupAcc_length_le {α : Type} [DecidableEq α] (seen : List α)
    (l : List α) : (dropDupAcc seen l).length ≤ l.length := by
  induction l generalizing seen with
  | nil => simp [dropDupAcc]
  | cons x xs ih =>
      by_cases hx : x ∈ seen
      · simp only [dropDupAcc, if_pos hx, List.length_cons]
        exact Nat.le_succ_of_le (ih seen)
      · simp only [dropDupAcc, if_neg hx, List.length_cons]
        exact Nat.succ_le_succ (ih (x :: seen))

theorem mem_of_mem_dropDupAcc {α : Type} [DecidableEq α] {seen l : List α}
    {a : α} (h : a ∈ dropDupAcc seen l) : a ∈ l := by
  induction l generalizing seen with
  | nil => simp [dropDupAcc] at h
  | cons x xs ih =>
      by_cases hx : x ∈ seen
      · simp only [dropDupAcc, if_pos hx] at h
        exact List.mem_cons_of_mem _ (ih h)
      · simp only [dropDupAcc, if_neg hx, List.mem_cons] at h
        rcases h with h | h
        · exact h ▸ List.mem_cons_self _ _
        · exact List.mem_cons_of_mem _ (ih h)

theorem dropDupAcc_nodup_and_disjoint {α : Type} [DecidableEq α]
    (seen l : List α) :
    (dropDupAcc seen l).Nodup ∧ ∀ a ∈ dropDupAcc seen l, a ∉ seen := by
  induction l generalizing seen with
  | nil => simp [dropDupAcc]
  | cons x xs ih =>
      by_cases hx : x ∈ seen
      · simp only [dropDupAcc, if_pos hx]
        exact ih seen
      · obtain ⟨hnd, hdisj⟩ := ih (x :: seen)
        refine ⟨?_, ?_⟩
        · simp only [dropDupAcc, if_neg hx, List.nodup_cons]
          exact ⟨fun hmem => (hdisj x hmem) (List.mem_cons_self _ _), hnd⟩
        · intro a ha
          simp only [dropDupAcc, if_neg hx, List.mem_cons] at ha
          rcases ha with rfl | ha
          · exact hx
          · exact fun hs => (hdisj a ha) (List.mem_cons_of_mem _ hs)

theorem nodup_dropDup {α : Type} [DecidableEq α] (l : List α) :
    (dropDup l).Nodup :=
  (dropDupAcc_nodup_and_disjoint [] l).1

theorem dropDupAcc_eq_self {α : Type} [DecidableEq α] {seen l : List α}
    (hd : ∀ a ∈ l, a ∉ seen) (hl : l.Nodup) : dropDupAcc seen l = l := by
  induction l generalizing seen with
  | nil => simp [dropDupAcc]
  | cons x xs ih =>
      have hx : x ∉ seen := hd x (List.mem_cons_self _ _)
      simp only [dropDupAcc, if_neg hx]
      have hxs : xs.Nodup := (List.nodup_cons.mp hl).2
      have hxmem : x ∉ xs := (List.nodup_cons.mp hl).1
      congr 1
      refine ih ?_ hxs
      intro a ha
      simp only [List.mem_cons]
      rintro (rfl | hs)
      · exact hxmem ha
      · exact hd a (List.mem_cons_of_mem _ ha) hs

theorem dropDup_eq_self {α : Type} [DecidableEq α] {l : List α}
    (hl : l.Nodup) : dropDup l = l :=
  dropDupAcc_eq_self (by simp) hl

theorem dupFlagCount_eq_zero {α : Type} [DecidableEq α] {seen l : List α}
    (hd : ∀ a ∈ l, a ∉ seen) (hl : l.Nodup) : dupFlagCount seen l = 0 := by
  induction l generalizing seen with
  | nil => simp [dupFlagCount]
  | cons x xs ih =>
      have hx : x ∉ seen := hd x (List.mem_cons_self _ _)
      simp only [dupFlagCount, if_neg hx, Nat.zero_add]
      have hxs : xs.Nodup := (List.nodup_cons.mp hl).2
      have hxmem : x ∉ xs := (List.nodup_cons.mp hl).1
      refine ih ?_ hxs
      intro a ha
      simp only [List.mem_cons]
      rintro (rfl | hs)
      · exact hxmem ha
      · exact hd a (List.mem_cons_of_mem _ ha) hs

/-! ## C5: row-count bookkeeping of clean_data -/

theorem cleanedRows_length_le (t : Table) :
    (cleanedRows t).length ≤ t.rows.length := by
  unfold cleanedRows
  rw [List.length_map]
  exact le_trans (List.length_filter_le _ _) (dropDupAcc_length_le [] t.rows)

/-- C5: for every input table, the metadata returned by `clean_data`
satisfies `rows_removed = original_rows − cleaned_rows`,
`rows_removed ≥ 0`, and `cleaned_rows ≤ original_rows`. -/
theorem clean_data_row_accounting (t : Table) :
    (clean_data t).2.rows_removed =
      ((clean_data t).2.original_rows : ℤ) - ((clean_data t).2.cleaned_rows : ℤ) ∧
    0 ≤ (clean_data t).2.rows_removed ∧
    (clean_data t).2.cleaned_rows ≤ (clean_data t).2.original_rows := by
  have hle : (cleanedRows t).length ≤ t.rows.length := cleanedRows_length_le t
  refine ⟨rfl, ?_, ?_⟩
  · simp only [clean_data]
    omega
  · simpa [clean_data] using hle

/-! ## Idempotence of stripping -/

theorem head?_dropWhile_not {α : Type} (p : α → Bool) (l : List α) :
    ∀ a, (l.dropWhile p).head? = some a → p a = false := by
  induction l with
  | nil => intro a h; simp [List.dropWhile] at h
  | cons x xs ih =>
      intro a h
      by_cases hx : p x
      · rw [List.dropWhile_cons_of_pos hx] at h
        exact ih a h
      · rw [List.dropWhile_cons_of_neg hx] at h
        simp only [List.head?_cons, Option.some.injEq] at h
        subst h
        simpa using hx

theorem dropWhile_eq_self_of_head? {α : Type} {p : α → Bool} {l : List α}
    (h : ∀ a, l.head? = some a → p a = false) : l.dropWhile p = l := by
  cases l with
  | nil => rfl
  | cons x xs =>
      have hx : p x = false := h x rfl
      simp [List.dropWhile_cons, hx]

theorem dropWhile_idem {α : Type} (p : α → Bool) (l : List α) :
    (l.dropWhile p).dropWhile p = l.dropWhile p :=
  dropWhile_eq_self_of_head? (head?_dropWhile_not p l)

theorem getLast?_dropWhile {α : Type} (p : α → Bool) (l : List α)
    (h : l.dropWhile p ≠ []) : (l.dropWhile p).getLast? = l.getLast? := by
  induction l with
  | nil => simp [List.dropWhile] at h
  | cons x xs ih =>
      by_cases hx : p x
      · rw [List.dropWhile_cons_of_pos hx] at h ⊢
        rw [ih h]
        cases xs with
        | nil => rw [List.dropWhile_nil] at h; exact absurd rfl h
        | cons y ys => exact (List.getLast?_cons_cons).symm
      · rw [List.dropWhile_cons_of_neg hx]

theorem stripChars_idem (l : List Char) :
    stripChars (stripChars l) = stripChars l := by
  unfold stripChars
  set A := l.dropWhile Char.isWhitespace with hA
  set r := A.reverse.dropWhile Char.isWhitespace with hr
  have h1 : r.reverse.dropWhile Char.isWhitespace = r.reverse := by
    apply dropWhile_eq_self_of_head?
    intro a ha
    rw [List.head?_reverse] at ha
    by_cases hrn : r = []
    · rw [hrn] at ha; simp at ha
    · rw [hr, getLast?_dropWhile _ _ (hr ▸ hrn), List.getLast?_reverse] at ha
      exact head?_dropWhile_not _ _ a ha
  rw [h1, List.reverse_reverse, hr, dropWhile_idem]

theorem pyStrip_idem (s : String) : pyStrip (pyStrip s) = pyStrip s := by
  unfold pyStrip
  exact congrArg String.mk (stripChars_idem s.data)

theorem stripCell_idem (c : Cell) : stripCell (stripCell c) = stripCell c := by
  cases c with
  | num q => rfl
  | na => rfl
  | str s => simp [stripCell, pyStrip_idem]

theorem stripByType_idem (dt : DType) (c : Cell) :
    stripByType dt (stripByType dt c) = stripByType dt c := by
  by_cases h : dt = DType.obj
  · simp [stripByType, h, stripCell_idem]
  · simp [stripByType, h]

theorem stripRow_idem (dts : List DType) (r : Row) :
    stripRow dts (stripRow dts r) = stripRow dts r := by
  unfold stripRow
  induction dts generalizing r with
  | nil => simp
  | cons dt dts ih =>
      cases r with
      | nil => simp
      | cons c cs => simp [List.zipWith, stripByType_idem, ih]

theorem map_eq_self_of_fixed {α : Type} {f : α → α} {l : List α}
    (h : ∀ x ∈ l, f x = x) : l.map f = l := by
  induction l with
  | nil => rfl
  | cons x xs ih =>
      rw [List.map_cons, h x (List.mem_cons_self _ _),
        ih (fun y hy => h y (List.mem_cons_of_mem _ hy))]

/-! ## C2: the cleaning fixed point -/

theorem mem_cleanedRows_stripFixed (t : Table) :
    ∀ x ∈ cleanedRows t, stripRow (dtypesOf t) x = x := by
  intro x hx
  unfold cleanedRows at hx
  obtain ⟨y, _, rfl⟩ := List.mem_map.mp hx
  exact stripRow_idem _ _

theorem cleanedRows_of_clean (t : Table) :
    cleanedRows (clean_data t).1 =
      ((dropDup (cleanedRows t)).filter noNA) := by
  show cleanedRows { cols := t.cols, rows := cleanedRows t } = _
  unfold cleanedRows
  apply map_eq_self_of_fixed
  intro x hx
  have hx1 : x ∈ dropDup ((((dropDup t.rows).filter noNA).map (stripRow (dtypesOf t)))) :=
    (List.mem_filter.mp hx).1
  have hx2 := mem_of_mem_dropDupAcc hx1
  exact mem_cleanedRows_stripFixed t x hx2

theorem clean_of_clean_rows (t : Table) :
    (clean_data (clean_data t).1).1.rows =
      ((dropDup (cleanedRows t)).filter noNA) := by
  show cleanedRows (clean_data t).1 = _
  exact cleanedRows_of_clean t

/-- C2 (amended): two applications of `clean_data` reach a fixed point — a
further run removes zero rows and returns the twice-cleaned table
unchanged. -/
theorem clean_data_twice_fixed_point (t : Table) :
    (clean_data (clean_data (clean_data t).1).1).1 = (clean_data (clean_data t).1).1 ∧
    (clean_data (clean_data (clean_data t).1).1).2.rows_removed = 0 := by
  set u := (clean_data (clean_data t).1).1 with hu
  have hrows : u.rows = ((dropDup (cleanedRows t)).filter noNA) :=
    clean_of_clean_rows t
  have hnodup : u.rows.Nodup := by
    rw [hrows]; exact (nodup_dropDup _).filter _
  have hnoNA : ∀ r ∈ u.rows, noNA r = true := by
    intro r hr; rw [hrows] at hr; exact List.of_mem_filter hr
  have hfix : ∀ r ∈ u.rows, stripRow (dtypesOf u) r = r := by
    intro r hr
    rw [hrows] at hr
    have h1 := mem_of_mem_dropDupAcc (List.mem_filter.mp hr).1
    have h2 := mem_cleanedRows_stripFixed t r h1
    have hdt : dtypesOf u = dtypesOf t := by
      rw [hu]; rfl
    rw [hdt]; exact h2
  have hclean : cleanedRows u = u.rows := by
    unfold cleanedRows
    rw [dropDup_eq_self hnodup, List.filter_eq_self.mpr hnoNA]
    exact map_eq_self_of_fixed hfix
  constructor
  · show ({ cols := u.cols, rows := cleanedRows u } : Table) = u
    rw [hclean]
  · show (u.rows.length : ℤ) - ((cleanedRows u).length : ℤ) = 0
    rw [hclean]; omega

/-- The two-row table whose string values differ only by leading
whitespace: cleaning strips them to equality, so a second cleaning run
removes one row. -/
def tStrip : Table :=
  { cols := [("name", DType.obj)]
    rows := [[Cell.str " a"], [Cell.str "a"]] }

/-- C2 (counterexample): re-running `clean_data` on its own output is not a
no-op — on `tStrip` the second run removes one row. -/
theorem clean_data_not_idempotent :
    (clean_data (clean_data tStrip).1).2.rows_removed ≠ 0 := by decide

/-! ## C3: validation after cleaning -/

theorem cellAt_stripRow_ne_na (t : Table) (hwf : WFTable t) (y : Row)
    (hy : y ∈ t.rows) (hna : noNA y = true) (j : ℕ) (hj : j < t.cols.length) :
    cellAt (stripRow (dtypesOf t) y) j ≠ Cell.na := by
  obtain ⟨hlen, hconf⟩ := hwf y hy
  have hdlen : (dtypesOf t).length = t.cols.length := List.length_map _ _
  have hjd : j < (dtypesOf t).length := by rw [hdlen]; exact hj
  have hjy : j < y.length := by rw [hlen]; exact hj
  have hjz : j < (List.zipWith stripByType (dtypesOf t) y).length := by
    rw [List.length_zipWith]
    exact lt_min hjd hjy
  have hval : cellAt (stripRow (dtypesOf t) y) j =
      stripByType ((dtypesOf t)[j]) (y[j]) := by
    unfold cellAt stripRow
    rw [List.getD_eq_getElem _ _ hjz]
    exact List.getElem_zipWith
  have hcell : cellAt y j = y[j] := by
    unfold cellAt
    exact List.getD_eq_getElem _ _ hjy
  have hcna : y[j] ≠ Cell.na := by
    intro hcontra
    have hmem : y[j] ∈ y := List.getElem_mem hjy
    have := List.all_eq_true.mp hna (y[j]) hmem
    rw [hcontra] at this
    simp at this
  have hconfj := hconf j hj
  rw [hcell] at hconfj
  have hgd : (dtypesOf t).getD j DType.obj = (dtypesOf t)[j] :=
    List.getD_eq_getElem _ _ hjd
  rw [hgd] at hconfj
  rw [hval]
  cases hdt : (dtypesOf t)[j] with
  | numeric =>
      rw [hdt] at hconfj
      cases hc : y[j] with
      | num q => simp [stripByType]
      | na => exact absurd hc hcna
      | str s => rw [hc] at hconfj; simp [cellConf] at hconfj
  | obj =>
      rw [hdt] at hconfj
      cases hc : y[j] with
      | num q => rw [hc] at hconfj; simp [cellConf] at hconfj
      | na => exact absurd hc hcna
      | str s => simp [stripByType, stripCell]

/-- C3 (amended): on the table returned by `clean_data`, `validate_data`
reports all per-column missing counts zero (for any well-formed input);
`duplicate_row_count` is zero provided the input's categorical values are
already whitespace-trimmed (stripping can otherwise re-introduce
duplicates). -/
theorem validate_after_clean (t : Table) (hwf : WFTable t) :
    (∀ p ∈ (validate_data (clean_data t).1).missing_values, p.2 = 0) ∧
    ((∀ r ∈ t.rows, stripRow (dtypesOf t) r = r) →
      (validate_data (clean_data t).1).duplicate_rows = 0) := by
  constructor
  · intro p hp
    simp only [validate_data, List.mem_map] at hp
    obtain ⟨⟨j, nmdt⟩, hq, hpq⟩ := hp
    have hj : j < t.cols.length := (List.mem_enum hq).1
    have hcount : missingCountAt (clean_data t).1 j = 0 := by
      unfold missingCountAt
      rw [List.countP_eq_zero]
      intro r hr
      have hrc : r ∈ cleanedRows t := hr
      unfold cleanedRows at hrc
      obtain ⟨y, hy, rfl⟩ := List.mem_map.mp hrc
      have hyrows : y ∈ t.rows := mem_of_mem_dropDupAcc (List.mem_filter.mp hy).1
      have hyna : noNA y = true := List.of_mem_filter hy
      have := cellAt_stripRow_ne_na t hwf y hyrows hyna j hj
      simpa using this
    rw [← hpq]
    exact hcount
  · intro hfix
    show duplicatedCount (cleanedRows t) = 0
    have hfix2 : ∀ x ∈ ((dropDup t.rows).filter noNA), stripRow (dtypesOf t) x = x := by
      intro x hx
      exact hfix x (mem_of_mem_dropDupAcc (List.mem_filter.mp hx).1)
    have heq : cleanedRows t = ((dropDup t.rows).filter noNA) := by
      unfold cleanedRows
      exact map_eq_self_of_fixed hfix2
    rw [heq]
    exact dupFlagCount_eq_zero (by simp) ((nodup_dropDup _).filter _)

/-- A small well-formed, already-trimmed table used as concrete input for
the cleaning/validation theorems. -/
def tTidy : Table :=
  { cols := [("name", DType.obj), ("age", DType.numeric)]
    rows := [[Cell.str "a", Cell.num 1],
             [Cell.str "b", Cell.na],
             [Cell.str "a", Cell.num 1]] }

theorem validate_after_clean_witness :
    (validate_data (clean_data tTidy).1).duplicate_rows = 0 ∧
    (validate_data (clean_data tTidy).1).missing_values = [("name", 0), ("age", 0)] := by
  constructor
  · exact (validate_after_clean tTidy (by decide)).2 (by decide)
  · decide

/-! ## AnalystAgent: linear-interpolation quantiles (`Series.quantile`) -/

/-- Floor of a nonnegative rational, computable inside the kernel. -/
def ratNatFloor (q : ℚ) : ℕ := q.num.toNat / q.den

theorem ratNatFloor_le {q : ℚ} (hq : 0 ≤ q) : (ratNatFloor q : ℚ) ≤ q := by
  have hnum : 0 ≤ q.num := Rat.num_nonneg.mpr hq
  have hrepr : ((q.num.toNat : ℕ) : ℚ) / ((q.den : ℕ) : ℚ) = q := by
    have h1 : ((q.num.toNat : ℕ) : ℚ) = ((q.num : ℤ) : ℚ) := by
      exact_mod_cast congrArg (fun z : ℤ => (z : ℚ)) (Int.toNat_of_nonneg hnum)
    rw [h1]
    exact Rat.num_div_den q
  calc (ratNatFloor q : ℚ) ≤ ((q.num.toNat : ℕ) : ℚ) / ((q.den : ℕ) : ℚ) :=
        Nat.cast_div_le
    _ = q := hrepr

theorem lt_ratNatFloor_add_one {q : ℚ} (hq : 0 ≤ q) :
    q < (ratNatFloor q : ℚ) + 1 := by
  have hnum : 0 ≤ q.num := Rat.num_nonneg.mpr hq
  have hden : 0 < q.den := q.den_pos
  have hrepr : ((q.num.toNat : ℕ) : ℚ) / ((q.den : ℕ) : ℚ) = q := by
    have h1 : ((q.num.toNat : ℕ) : ℚ) = ((q.num : ℤ) : ℚ) := by
      exact_mod_cast congrArg (fun z : ℤ => (z : ℚ)) (Int.toNat_of_nonneg hnum)
    rw [h1]
    exact Rat.num_div_den q
  have hnat : q.num.toNat < (q.num.toNat / q.den + 1) * q.den := by
    have hmod := Nat.div_add_mod q.num.toNat q.den
    have hlt := Nat.mod_lt q.num.toNat hden
    calc q.num.toNat = q.den * (q.num.toNat / q.den) + q.num.toNat % q.den :=
          hmod.symm
      _ < q.den * (q.num.toNat / q.den) + q.den := by omega
      _ = (q.num.toNat / q.den + 1) * q.den := by ring
  have hq' : ((q.num.toNat : ℕ) : ℚ) / ((q.den : ℕ) : ℚ) <
      ((ratNatFloor q : ℕ) : ℚ) + 1 := by
    rw [div_lt_iff₀ (by exact_mod_cast hden)]
    unfold ratNatFloor
    exact_mod_cast hnat
  rw [hrepr] at hq'
  exact hq'

theorem ratNatFloor_mono {a b : ℚ} (h0 : 0 ≤ a) (hab : a ≤ b) :
    ratNatFloor a ≤ ratNatFloor b := by
  by_contra hcon
  push_neg at hcon
  have h1 : (ratNatFloor b : ℚ) + 1 ≤ (ratNatFloor a : ℚ) := by
    exact_mod_cast Nat.succ_le_of_lt hcon
  have h2 : (ratNatFloor a : ℚ) ≤ a := ratNatFloor_le h0
  have h3 : b < (ratNatFloor b : ℚ) + 1 := lt_ratNatFloor_add_one (le_trans h0 hab)
  linarith

/-- Linear interpolation at fractional position `h` in a sorted value list:
`s[i] + (h − i) · (s[i+1] − s[i])` with `i = ⌊h⌋`, the formula behind
pandas `quantile(..., interpolation="linear")`. -/
def interp (s : List ℚ) (h : ℚ) : ℚ :=
  s.getD (ratNatFloor h) 0 +
    (h - (ratNatFloor h : ℚ)) *
      (s.getD (ratNatFloor h + 1) (s.getD (ratNatFloor h) 0) -
        s.getD (ratNatFloor h) 0)

def sortedVals (xs : List ℚ) : List ℚ := List.insertionSort (· ≤ ·) xs

/-- `Series.quantile(q)` on the non-missing values `xs`: NaN on an empty
series, otherwise linear interpolation at position `q · (n − 1)` in the
sorted values. -/
def quantile (q : ℚ) (xs : List ℚ) : Option ℚ :=
  if xs = [] then none
  else some (interp (sortedVals xs) (q * ((xs.length : ℚ) - 1)))

theorem sorted_getD_mono {s : List ℚ} (hs : List.Sorted (· ≤ ·) s) {i j : ℕ}
    (hij : i ≤ j) (hj : j < s.length) (d : ℚ) : s.getD i d ≤ s.getD j d := by
  have hi : i < s.length := lt_of_le_of_lt hij hj
  rw [List.getD_eq_getElem _ _ hi, List.getD_eq_getElem _ _ hj]
  have h := List.Sorted.rel_get_of_le hs (a := ⟨i, hi⟩) (b := ⟨j, hj⟩)
    (Fin.mk_le_mk.mpr hij)
  simpa [List.get_eq_getElem] using h

theorem interp_mono {s : List ℚ} (hs : List.Sorted (· ≤ ·) s) {a b : ℚ}
    (ha : 0 ≤ a) (hab : a ≤ b) (hb : b ≤ (s.length : ℚ) - 1) :
    interp s a ≤ interp s b := by
  have hb0 : 0 ≤ b := le_trans ha hab
  have hij : ratNatFloor a ≤ ratNatFloor b := ratNatFloor_mono ha hab
  have hjq : (ratNatFloor b : ℚ) ≤ b := ratNatFloor_le hb0
  have hjlen : ratNatFloor b < s.length := by
    have h1 : (ratNatFloor b : ℚ) + 1 ≤ (s.length : ℚ) := by linarith
    have h2 : ratNatFloor b + 1 ≤ s.length := by exact_mod_cast h1
    omega
  have hilen : ratNatFloor a < s.length := Nat.lt_of_le_of_lt hij hjlen
  have hga : 0 ≤ a - (ratNatFloor a : ℚ) := sub_nonneg.mpr (ratNatFloor_le ha)
  have hga1 : a - (ratNatFloor a : ℚ) ≤ 1 := by
    have := lt_ratNatFloor_add_one ha
    linarith
  have hgb : 0 ≤ b - (ratNatFloor b : ℚ) := sub_nonneg.mpr hjq
  have hdiffB : 0 ≤ s.getD (ratNatFloor b + 1) (s.getD (ratNatFloor b) 0) -
      s.getD (ratNatFloor b) 0 := by
    by_cases hc : ratNatFloor b + 1 < s.length
    · have h1 : s.getD (ratNatFloor b + 1) (s.getD (ratNatFloor b) 0) =
          s.getD (ratNatFloor b + 1) 0 := by
        rw [List.getD_eq_getElem _ _ hc, List.getD_eq_getElem _ _ hc]
      rw [h1]
      have := sorted_getD_mono hs (Nat.le_succ _) hc (0 : ℚ)
      linarith
    · rw [List.getD_eq_default _ _ (le_of_not_lt hc)]
      simp
  rcases Nat.lt_or_ge (ratNatFloor a) (ratNatFloor b) with hlt | hge
  · have hi1j : ratNatFloor a + 1 ≤ ratNatFloor b := hlt
    have hi1len : ratNatFloor a + 1 < s.length := Nat.lt_of_le_of_lt hi1j hjlen
    have h1 : interp s a ≤ s.getD (ratNatFloor a + 1) 0 := by
      unfold interp
      have hEq : s.getD (ratNatFloor a + 1) (s.getD (ratNatFloor a) 0) =
          s.getD (ratNatFloor a + 1) 0 := by
        rw [List.getD_eq_getElem _ _ hi1len, List.getD_eq_getElem _ _ hi1len]
      rw [hEq]
      have hd0 : 0 ≤ s.getD (ratNatFloor a + 1) 0 - s.getD (ratNatFloor a) 0 := by
        have := sorted_getD_mono hs (Nat.le_succ _) hi1len (0 : ℚ)
        linarith
      have := mul_le_of_le_one_left hd0 hga1
      linarith
    have h2 : s.getD (ratNatFloor a + 1) 0 ≤ s.getD (ratNatFloor b) 0 :=
      sorted_getD_mono hs hi1j hjlen 0
    have h3 : s.getD (ratNatFloor b) 0 ≤ interp s b := by
      unfold interp
      have := mul_nonneg hgb hdiffB
      linarith
    linarith
  · have heq : ratNatFloor a = ratNatFloor b := le_antisymm hij hge
    unfold interp
    rw [heq]
    have hsub : a - (ratNatFloor b : ℚ) ≤ b - (ratNatFloor b : ℚ) := by linarith
    have := mul_le_mul_of_nonneg_right hsub hdiffB
    linarith

theorem quantile_eq_some {xs : List ℚ} (hxs : xs ≠ []) (q : ℚ) :
    quantile q xs = some (interp (sortedVals xs) (q * ((xs.length : ℚ) - 1))) := by
  unfold quantile
  rw [if_neg hxs]

/-- Monotonicity of the linear-interpolation quantile in the probability
argument; in particular Q1 ≤ Q3. -/
theorem quantile_mono {xs : List ℚ} (hxs : xs ≠ []) {p q : ℚ}
    (hp : 0 ≤ p) (hpq : p ≤ q) (hq1 : q ≤ 1) :
    ∃ vp vq, quantile p xs = some vp ∧ quantile q xs = some vq ∧ vp ≤ vq := by
  have hlen : (sortedVals xs).length = xs.length :=
    (List.perm_insertionSort _ xs).length_eq
  have hsorted : List.Sorted (· ≤ ·) (sortedVals xs) :=
    List.sorted_insertionSort _ xs
  have hn1 : (0 : ℚ) ≤ (xs.length : ℚ) - 1 := by
    have h1 : 1 ≤ xs.length := List.length_pos.mpr hxs
    have h2 : (1 : ℚ) ≤ (xs.length : ℚ) := by exact_mod_cast h1
    linarith
  refine ⟨_, _, quantile_eq_some hxs p, quantile_eq_some hxs q, ?_⟩
  apply interp_mono hsorted
  · exact mul_nonneg hp hn1
  · exact mul_le_mul_of_nonneg_right hpq hn1
  · rw [hlen]
    calc q * ((xs.length : ℚ) - 1) ≤ 1 * ((xs.length : ℚ) - 1) :=
          mul_le_mul_of_nonneg_right hq1 hn1
      _ = (xs.length : ℚ) - 1 := one_mul _

/-! ## AnalystAgent: outlier detection (`detect_outliers`) -/

/-- The numeric values of column `j`, positionally, with NaN as `none`. -/
def colOpt (t : Table) (j : ℕ) : List (Option ℚ) :=
  t.rows.map (fun r => match cellAt r j with
    | Cell.num q => some q
    | _ => none)

/-- The non-missing numeric values of column `j` (what pandas reductions
such as `mean`, `median`, `quantile` operate on, since they skip NaN). -/
def nonNaAt (t : Table) (j : ℕ) : List ℚ := (colOpt t j).filterMap id

/-- One entry of the dict built by `detect_outliers`. -/
structure OutlierEntry where
  count : ℕ
  percentage : Option ℚ
  lower : Option ℚ
  upper : Option ℚ
deriving DecidableEq

/-- `float(outlier_count / len(df) * 100)` — a NaN (`none`) when the table
has zero rows, since numpy produces NaN for 0/0 instead of raising. -/
def outlierPct (cnt total : ℕ) : Option ℚ :=
  if total = 0 then none else some ((cnt : ℚ) / (total : ℚ) * 100)

/-- Per-column body of the `detect_outliers` loop (analyst.py lines 58-70):
`Q1 = quantile(0.25)`, `Q3 = quantile(0.75)`, `IQR = Q3 − Q1`,
`lower = Q1 − 1.5·IQR`, `upper = Q3 + 1.5·IQR`, count the values strictly
outside.  On an empty column both quantiles are NaN; every comparison with
a NaN bound is false, so the count is 0 and the bounds are NaN. -/
def outlierEntry (t : Table) (j : ℕ) : OutlierEntry :=
  match quantile (1/4) (nonNaAt t j), quantile (3/4) (nonNaAt t j) with
  | some Q1, some Q3 =>
      { count := (nonNaAt t j).countP (fun x =>
          decide (x < Q1 - 3/2 * (Q3 - Q1)) || decide (Q3 + 3/2 * (Q3 - Q1) < x))
        percentage := outlierPct ((nonNaAt t j).countP (fun x =>
          decide (x < Q1 - 3/2 * (Q3 - Q1)) || decide (Q3 + 3/2 * (Q3 - Q1) < x)))
          t.rows.length
        lower := some (Q1 - 3/2 * (Q3 - Q1))
        upper := some (Q3 + 3/2 * (Q3 - Q1)) }
  | _, _ =>
      { count := 0
        percentage := outlierPct 0 t.rows.length
        lower := none
        upper := none }

/-- `AnalystAgent.detect_outliers` (analyst.py lines 54-72): one entry per
numeric column, keyed by column name, in column order. -/
def detect_outliers (t : Table) : List (String × OutlierEntry) :=
  (numericIdxs t).map (fun p => (p.2, outlierEntry t p.1))

theorem outlierEntry_percentage (t : Table) (j : ℕ) :
    (outlierEntry t j).percentage =
      outlierPct (outlierEntry t j).count t.rows.length := by
  unfold outlierEntry
  rcases quantile (1/4) (nonNaAt t j) with _ | Q1 <;>
    rcases quantile (3/4) (nonNaAt t j) with _ | Q3 <;> rfl

/-- C1 (amended): for every numeric column, `detect_outliers` reports
`percentage = count / total_rows × 100` whenever the table has at least one
row; with zero rows the division produces NaN (modelled `none`) — not 0 —
though no error is raised. -/
theorem detect_outliers_percentage (t : Table) (j : ℕ) (c : String)
    (hmem : (j, c) ∈ numericIdxs t) :
    (c, outlierEntry t j) ∈ detect_outliers t ∧
    (0 < t.rows.length → (outlierEntry t j).percentage =
      some (((outlierEntry t j).count : ℚ) / (t.rows.length : ℚ) * 100)) ∧
    (t.rows.length = 0 → (outlierEntry t j).percentage = none) := by
  refine ⟨?_, ?_, ?_⟩
  · unfold detect_outliers
    exact List.mem_map.mpr ⟨(j, c), hmem, rfl⟩
  · intro hpos
    rw [outlierEntry_percentage]
    unfold outlierPct
    rw [if_neg (Nat.pos_iff_ne_zero.mp hpos)]
  · intro h0
    rw [outlierEntry_percentage]
    unfold outlierPct
    rw [if_pos h0]

/-- A numeric column with zero rows: the percentage division is 0/0. -/
def tEmptyNum : Table := { cols := [("x", DType.numeric)], rows := [] }

/-- C1 (counterexample): on a table with a numeric column and zero rows the
reported percentage is NaN (`none`), not 0 as the claim states. -/
theorem detect_outliers_empty_not_zero :
    detect_outliers tEmptyNum = [("x", ⟨0, none, none, none⟩)] ∧
    (outlierEntry tEmptyNum 0).percentage ≠ some 0 := by decide

/-- The spec's Scenario E column `[1,2,3,4,5,100]`. -/
def tScenE : Table :=
  { cols := [("value", DType.numeric)]
    rows := [[Cell.num 1], [Cell.num 2], [Cell.num 3],
             [Cell.num 4], [Cell.num 5], [Cell.num 100]] }

theorem detect_outliers_percentage_witness :
    (outlierEntry tScenE 0).percentage =
      some (((outlierEntry tScenE 0).count : ℚ) / ((tScenE.rows.length : ℕ) : ℚ) * 100) :=
  (detect_outliers_percentage tScenE 0 "value" (by decide)).2.1 (by decide)

/-- C6: for every non-empty numeric column, the Tukey fences are computed
from the linear-interpolation quartiles, `lower ≤ Q1 ≤ Q3 ≤ upper`, and the
count is the number of values strictly outside `[lower, upper]`. -/
theorem detect_outliers_tukey (t : Table) (j : ℕ) (c : String)
    (hmem : (j, c) ∈ numericIdxs t) (hne : nonNaAt t j ≠ []) :
    ∃ Q1 Q3, quantile (1/4) (nonNaAt t j) = some Q1 ∧
      quantile (3/4) (nonNaAt t j) = some Q3 ∧
      (outlierEntry t j).lower = some (Q1 - 3/2 * (Q3 - Q1)) ∧
      (outlierEntry t j).upper = some (Q3 + 3/2 * (Q3 - Q1)) ∧
      Q1 - 3/2 * (Q3 - Q1) ≤ Q1 ∧ Q1 ≤ Q3 ∧ Q3 ≤ Q3 + 3/2 * (Q3 - Q1) ∧
      (outlierEntry t j).count = (nonNaAt t j).countP (fun x =>
        decide (x < Q1 - 3/2 * (Q3 - Q1)) || decide (Q3 + 3/2 * (Q3 - Q1) < x)) ∧
      (c, outlierEntry t j) ∈ detect_outliers t := by
  obtain ⟨Q1, Q3, e1, e3, hle⟩ :=
    quantile_mono hne (p := 1/4) (q := 3/4) (by norm_num) (by norm_num) (by norm_num)
  refine ⟨Q1, Q3, e1, e3, ?_, ?_, ?_, hle, ?_, ?_, ?_⟩
  · unfold outlierEntry
    rw [e1, e3]
  · unfold outlierEntry
    rw [e1, e3]
  · linarith
  · linarith
  · unfold outlierEntry
    rw [e1, e3]
  · unfold detect_outliers
    exact List.mem_map.mpr ⟨(j, c), hmem, rfl⟩

theorem detect_outliers_tukey_witness :
    ("value", outlierEntry tScenE 0) ∈ detect_outliers tScenE := by
  obtain ⟨Q1, Q3, a1, a2, a3, a4, a5, a6, a7, a8, a9⟩ :=
    detect_outliers_tukey tScenE 0 "value" (by decide) (by decide)
  exact a9

/-! ## AnalystAgent: descriptive statistics (`compute_statistics`) -/

/-- `Series.mean()` over the non-missing values: NaN on an empty series. -/
def meanQ (xs : List ℚ) : Option ℚ :=
  if xs = [] then none else some (xs.sum / (xs.length : ℚ))

/-- Sample variance (`ddof=1`, pandas default): NaN when fewer than two
values. -/
def sampleVar (xs : List ℚ) : Option ℚ :=
  if xs.length ≤ 1 then none
  else some ((xs.map (fun v => (v - xs.sum / (xs.length : ℚ)) ^ 2)).sum /
    ((xs.length : ℚ) - 1))

/-- `Series.std()`: the square root of the sample variance, over the ideal
reals. -/
noncomputable def stdQ (xs : List ℚ) : Option ℝ :=
  (sampleVar xs).map (fun v => Real.sqrt (v : ℝ))

/-- One value of `numeric_columns_stats`: mean/median/std/min/max of a
numeric column (analyst.py lines 19-26). -/
structure NumColStats where
  mean : Option ℚ
  median : Option ℚ
  std : Option ℝ
  min : Option ℚ
  max : Option ℚ

noncomputable def numColStats (xs : List ℚ) : NumColStats :=
  { mean := meanQ xs
    median := quantile (1/2) xs
    std := stdQ xs
    min := xs.min?
    max := xs.max? }

/-- One column of `df.describe()` (count/mean/std/min/quartiles/max).
`describe()` on a frame with at least one numeric column summarises just
the numeric columns (its default); all-object and zero-column frames
behave differently in pandas but are irrelevant to every claim below. -/
structure DescribeCol where
  count : ℕ
  mean : Option ℚ
  std : Option ℝ
  min : Option ℚ
  q25 : Option ℚ
  q50 : Option ℚ
  q75 : Option ℚ
  max : Option ℚ

noncomputable def describeCol (xs : List ℚ) : DescribeCol :=
  { count := xs.length
    mean := meanQ xs
    std := stdQ xs
    min := xs.min?
    q25 := quantile (1/4) xs
    q50 := quantile (1/2) xs
    q75 := quantile (3/4) xs
    max := xs.max? }

/-! ### Pearson correlation (`df[numeric_cols].corr()`, pandas `nancorr`) -/

/-- Keep the positions where both series are non-missing (pairwise
deletion, as `nancorr` masks). -/
def pairSel : Option ℚ × Option ℚ → Option (ℚ × ℚ)
  | (some a, some b) => some (a, b)
  | _ => none

def validPairs (x y : List (Option ℚ)) : List (ℚ × ℚ) :=
  (x.zip y).filterMap pairSel

def pairsMeanFst (ps : List (ℚ × ℚ)) : ℚ :=
  (ps.map Prod.fst).sum / (ps.length : ℚ)

def pairsMeanSnd (ps : List (ℚ × ℚ)) : ℚ :=
  (ps.map Prod.snd).sum / (ps.length : ℚ)

def corrSumXX (ps : List (ℚ × ℚ)) : ℚ :=
  (ps.map (fun p => (p.1 - pairsMeanFst ps) ^ 2)).sum

def corrSumYY (ps : List (ℚ × ℚ)) : ℚ :=
  (ps.map (fun p => (p.2 - pairsMeanSnd ps) ^ 2)).sum

def corrSumXY (ps : List (ℚ × ℚ)) : ℚ :=
  (ps.map (fun p => (p.1 - pairsMeanFst ps) * (p.2 - pairsMeanSnd ps))).sum

/-- One entry of the Pearson correlation matrix, after pandas `nancorr`
(with the default `min_periods = 1`): NaN when there is no pairwise
complete observation or when either centred sum of squares vanishes,
otherwise `covxy / sqrt(sumxx · sumyy)`. -/
noncomputable def corrEntry (x y : List (Option ℚ)) : Option ℝ :=
  if (validPairs x y).length < 1 then none
  else if corrSumXX (validPairs x y) * corrSumYY (validPairs x y) = 0 then none
  else some ((corrSumXY (validPairs x y) : ℝ) /
    Real.sqrt ((corrSumXX (validPairs x y) * corrSumYY (validPairs x y) : ℚ) : ℝ))

/-- `df[numeric_cols].corr().to_dict()`: outer and inner keys are the
numeric columns, in column order. -/
noncomputable def corrMatrix (t : Table) : List (String × List (String × Option ℝ)) :=
  (numericIdxs t).map (fun p =>
    (p.2, (numericIdxs t).map (fun q =>
      (q.2, corrEntry (colOpt t p.1) (colOpt t q.1)))))

/-- The stats dict of `AnalystAgent.compute_statistics`. -/
structure Stats where
  summary : List (String × DescribeCol)
  correlations : List (String × List (String × Option ℝ))
  numeric_columns_stats : List (String × NumColStats)

/-- `AnalystAgent.compute_statistics` (analyst.py lines 10-28). -/
noncomputable def compute_statistics (t : Table) : Stats :=
  { summary := (numericIdxs t).map (fun p => (p.2, describeCol (nonNaAt t p.1)))
    correlations := if 1 < (numericCols t).length then corrMatrix t else []
    numeric_columns_stats :=
      (numericIdxs t).map (fun p => (p.2, numColStats (nonNaAt t p.1))) }

/-! ### Symmetry and diagonal of the correlation matrix -/

theorem pairSel_swap (p : Option ℚ × Option ℚ) :
    pairSel (Prod.swap p) = (pairSel p).map Prod.swap := by
  rcases p with ⟨_ | a, _ | b⟩ <;> rfl

theorem validPairs_swap (x y : List (Option ℚ)) :
    validPairs y x = (validPairs x y).map Prod.swap := by
  unfold validPairs
  have hzip : y.zip x = (x.zip y).map Prod.swap := (List.zip_swap x y).symm
  rw [hzip, List.filterMap_map, List.map_filterMap]
  have hfg : pairSel ∘ Prod.swap =
      fun p : Option ℚ × Option ℚ => (pairSel p).map Prod.swap := by
    funext p
    exact pairSel_swap p
  rw [hfg]

theorem pairsMean_swap_fst (ps : List (ℚ × ℚ)) :
    pairsMeanFst (ps.map Prod.swap) = pairsMeanSnd ps := by
  unfold pairsMeanFst pairsMeanSnd
  rw [List.map_map, List.length_map]
  rfl

theorem pairsMean_swap_snd (ps : List (ℚ × ℚ)) :
    pairsMeanSnd (ps.map Prod.swap) = pairsMeanFst ps := by
  unfold pairsMeanFst pairsMeanSnd
  rw [List.map_map, List.length_map]
  rfl

theorem corrSumXX_swap (ps : List (ℚ × ℚ)) :
    corrSumXX (ps.map Prod.swap) = corrSumYY ps := by
  unfold corrSumXX corrSumYY
  rw [List.map_map, pairsMean_swap_fst]
  rfl

theorem corrSumYY_swap (ps : List (ℚ × ℚ)) :
    corrSumYY (ps.map Prod.swap) = corrSumXX ps := by
  unfold corrSumXX corrSumYY
  rw [List.map_map, pairsMean_swap_snd]
  rfl

theorem corrSumXY_swap (ps : List (ℚ × ℚ)) :
    corrSumXY (ps.map Prod.swap) = corrSumXY ps := by
  unfold corrSumXY
  rw [List.map_map, pairsMean_swap_fst, pairsMean_swap_snd]
  apply congrArg List.sum
  apply List.map_congr_left
  intro p _
  simp only [Function.comp, Prod.fst_swap, Prod.snd_swap]
  ring

theorem corrEntry_symm (x y : List (Option ℚ)) :
    corrEntry x y = corrEntry y x := by
  unfold corrEntry
  rw [validPairs_swap x y, List.length_map, corrSumXX_swap, corrSumYY_swap,
    corrSumXY_swap, mul_comm (corrSumYY (validPairs x y)) (corrSumXX (validPairs x y))]

theorem validPairs_self (x : List (Option ℚ)) :
    validPairs x x = (x.filterMap id).map (fun a => (a, a)) := by
  induction x with
  | nil => rfl
  | cons a xs ih =>
      rcases a with _ | v
      · simpa [validPairs, pairSel, List.zip] using ih
      · simpa [validPairs, pairSel, List.zip] using ih

theorem corr_dup (vs : List ℚ) :
    corrSumYY (vs.map (fun a => (a, a))) = corrSumXX (vs.map (fun a => (a, a))) ∧
    corrSumXY (vs.map (fun a => (a, a))) = corrSumXX (vs.map (fun a => (a, a))) := by
  have hfst : (vs.map (fun a : ℚ => (a, a))).map Prod.fst = vs := by
    rw [List.map_map]
    exact map_eq_self_of_fixed (fun x _ => rfl)
  have hsnd : (vs.map (fun a : ℚ => (a, a))).map Prod.snd = vs := by
    rw [List.map_map]
    exact map_eq_self_of_fixed (fun x _ => rfl)
  have hmf : pairsMeanFst (vs.map (fun a => (a, a))) = vs.sum / (vs.length : ℚ) := by
    unfold pairsMeanFst
    rw [hfst, List.length_map]
  have hms : pairsMeanSnd (vs.map (fun a => (a, a))) = vs.sum / (vs.length : ℚ) := by
    unfold pairsMeanSnd
    rw [hsnd, List.length_map]
  constructor
  · unfold corrSumXX corrSumYY
    rw [hmf, hms, List.map_map, List.map_map]
    apply congrArg List.sum
    apply List.map_congr_left
    intro v _
    rfl
  · unfold corrSumXY corrSumXX
    rw [hmf, hms, List.map_map, List.map_map]
    apply congrArg List.sum
    apply List.map_congr_left
    intro v _
    simp only [Function.comp]
    rw [sq]

theorem corrSums_self (x : List (Option ℚ)) :
    corrSumYY (validPairs x x) = corrSumXX (validPairs x x) ∧
    corrSumXY (validPairs x x) = corrSumXX (validPairs x x) := by
  rw [validPairs_self]
  exact corr_dup _

theorem corrSumXX_nonneg (ps : List (ℚ × ℚ)) : 0 ≤ corrSumXX ps := by
  unfold corrSumXX
  apply List.sum_nonneg
  intro v hv
  obtain ⟨p, _, rfl⟩ := List.mem_map.mp hv
  exact sq_nonneg _

/-- Diagonal entries of the pandas correlation matrix: 1 when the column
has positive centred sum of squares, NaN (`none`) when it vanishes (e.g. a
constant column, a single row, or no data). -/
theorem corrEntry_self (x : List (Option ℚ)) :
    (0 < corrSumXX (validPairs x x) → corrEntry x x = some 1) ∧
    (corrSumXX (validPairs x x) = 0 → corrEntry x x = none) := by
  obtain ⟨hYY, hXY⟩ := corrSums_self x
  constructor
  · intro hpos
    have hne : ¬ (validPairs x x).length < 1 := by
      intro hlen
      have h0 : validPairs x x = [] := by
        cases h : validPairs x x with
        | nil => rfl
        | cons p ps => rw [h] at hlen; simp at hlen
      rw [h0] at hpos
      simp [corrSumXX, pairsMeanFst] at hpos
    have hSne : corrSumXX (validPairs x x) ≠ 0 := ne_of_gt hpos
    have hprod : corrSumXX (validPairs x x) * corrSumYY (validPairs x x) ≠ 0 := by
      rw [hYY]
      exact mul_ne_zero hSne hSne
    unfold corrEntry
    rw [if_neg hne, if_neg hprod, hXY, hYY]
    congr 1
    set S := corrSumXX (validPairs x x) with hS
    have hcast : ((S * S : ℚ) : ℝ) = (S : ℝ) * (S : ℝ) := by push_cast; ring
    rw [hcast, Real.sqrt_mul_self (by exact_mod_cast le_of_lt hpos)]
    rw [div_self (by exact_mod_cast hSne)]
  · intro hzero
    unfold corrEntry
    by_cases hlen : (validPairs x x).length < 1
    · rw [if_pos hlen]
    · rw [if_neg hlen, if_pos (by rw [hzero, zero_mul])]

/-- C4 (amended): the correlation matrix of `compute_statistics` is empty
when fewer than 2 numeric columns exist; with at least 2 it is square over
exactly the numeric columns and symmetric, and a diagonal entry equals 1
exactly when its column has positive centred sum of squares over the
non-missing values — a zero-variance column's diagonal entry is NaN
(`none`), not 1. -/
theorem compute_statistics_correlation_matrix (t : Table) :
    ((numericCols t).length ≤ 1 → (compute_statistics t).correlations = []) ∧
    (2 ≤ (numericCols t).length →
      (compute_statistics t).correlations.map Prod.fst = numericCols t ∧
      (∀ row ∈ (compute_statistics t).correlations,
        row.2.map Prod.fst = numericCols t) ∧
      (∀ p ∈ numericIdxs t,
        (p.2, (numericIdxs t).map (fun q =>
          (q.2, corrEntry (colOpt t p.1) (colOpt t q.1))))
          ∈ (compute_statistics t).correlations) ∧
      (∀ p ∈ numericIdxs t, ∀ q ∈ numericIdxs t,
        corrEntry (colOpt t p.1) (colOpt t q.1) =
          corrEntry (colOpt t q.1) (colOpt t p.1)) ∧
      (∀ p ∈ numericIdxs t,
        (0 < corrSumXX (validPairs (colOpt t p.1) (colOpt t p.1)) →
          corrEntry (colOpt t p.1) (colOpt t p.1) = some 1) ∧
        (corrSumXX (validPairs (colOpt t p.1) (colOpt t p.1)) = 0 →
          corrEntry (colOpt t p.1) (colOpt t p.1) = none))) := by
  constructor
  · intro hle
    show (if 1 < (numericCols t).length then corrMatrix t else []) = []
    rw [if_neg (not_lt.mpr hle)]
  · intro hge
    have hcorr : (compute_statistics t).correlations = corrMatrix t := by
      show (if 1 < (numericCols t).length then corrMatrix t else []) = _
      rw [if_pos (by omega)]
    refine ⟨?_, ?_, ?_, ?_, ?_⟩
    · rw [hcorr]
      unfold corrMatrix numericCols
      rw [List.map_map]
      rfl
    · intro row hrow
      rw [hcorr] at hrow
      unfold corrMatrix at hrow
      obtain ⟨p, _, rfl⟩ := List.mem_map.mp hrow
      unfold numericCols
      rw [List.map_map]
      rfl
    · intro p hp
      rw [hcorr]
      unfold corrMatrix
      exact List.mem_map.mpr ⟨p, hp, rfl⟩
    · intro p _ q _
      exact corrEntry_symm _ _
    · intro p _
      exact corrEntry_self _

/-- Two numeric columns where `a` is constant: its variance is zero, so the
`a`-`a` diagonal entry of the correlation matrix is NaN. -/
def tCorr : Table :=
  { cols := [("a", DType.numeric), ("b", DType.numeric)]
    rows := [[Cell.num 1, Cell.num 1], [Cell.num 1, Cell.num 2]] }

/-- C4 (counterexample): `tCorr` has 2 numeric columns, yet the diagonal
entry of constant column `a` is NaN (`none`), not 1. -/
theorem corr_diag_counterexample :
    2 ≤ (numericCols tCorr).length ∧
    ((((compute_statistics tCorr).correlations.getD 0 ("", [])).2.getD 0
      ("", some 1)).2 = none) := by
  refine ⟨by decide, ?_⟩
  have hps : validPairs (colOpt tCorr 0) (colOpt tCorr 0) = [(1, 1), (1, 1)] := rfl
  have hS : corrSumXX (validPairs (colOpt tCorr 0) (colOpt tCorr 0)) = 0 := by
    rw [hps]
    norm_num [corrSumXX, pairsMeanFst]
  have h := (corrEntry_self (colOpt tCorr 0)).2 hS
  calc (((compute_statistics tCorr).correlations.getD 0 ("", [])).2.getD 0
      ("", some 1)).2
      = corrEntry (colOpt tCorr 0) (colOpt tCorr 0) := rfl
    _ = none := h

theorem compute_statistics_correlation_matrix_witness :
    corrEntry (colOpt tCorr 0) (colOpt tCorr 1) =
      corrEntry (colOpt tCorr 1) (colOpt tCorr 0) := by
  have h := (compute_statistics_correlation_matrix tCorr).2 (by decide)
  exact h.2.2.2.1 (0, "a") (by decide) (1, "b") (by decide)

/-- C3 (counterexample): on `tStrip` the cleaned table contains a duplicate
row (created by stripping), so `validate_data` reports a nonzero
`duplicate_rows`. -/
theorem validate_after_clean_counterexample :
    (validate_data (clean_data tStrip).1).duplicate_rows ≠ 0 := by decide

/-! ## AnalystAgent: insight generation (`generate_insights`) -/

/-- All cells of column `j` top to bottom. -/
def colCells (t : Table) (j : ℕ) : List Cell := t.rows.map (fun r => cellAt r j)

/-- `df[col].nunique()`: distinct non-missing values of the column (pandas
default `dropna=True`). -/
def nuniqueAt (t : Table) (j : ℕ) : ℕ :=
  (dropDup ((colCells t j).filter (fun c => decide (c ≠ Cell.na)))).length

/-- The always-emitted first insight (analyst.py line 34). -/
def headerMsg (t : Table) : String :=
  "Dataset contains " ++ toString t.rows.length ++ " records with " ++
    toString t.cols.length ++ " features"

/-- The skew insight for one numeric column (analyst.py lines 37-43):
right-skew when `mean > median * 1.2`, else left-skew when
`mean < median * 0.8`, else nothing.  When the column has no non-missing
value both mean and median are NaN and every comparison is false, so no
insight is emitted.  (The source wraps the column name in single quotes;
the quotes are omitted here.) -/
def skewMsg (t : Table) (p : ℕ × String) : Option String :=
  match meanQ (nonNaAt t p.1), quantile (1/2) (nonNaAt t p.1) with
  | some m, some md =>
      if m > md * (6/5) then
        some (p.2 ++ " shows right-skewed distribution (mean > median)")
      else if m < md * (4/5) then
        some (p.2 ++ " shows left-skewed distribution (mean < median)")
      else none
  | _, _ => none

/-- The category insight for one categorical column (analyst.py lines
47-50): emitted when the column has fewer than 10 distinct values. -/
def catMsg (t : Table) (p : ℕ × String) : Option String :=
  if nuniqueAt t p.1 < 10 then
    some (p.2 ++ " has " ++ toString (nuniqueAt t p.1) ++ " unique categories")
  else none

/-- `AnalystAgent.generate_insights` (analyst.py lines 30-52), with the
`insights.append` loops rendered as left folds in source order: header,
then the numeric columns, then the categorical columns. -/
def generate_insights (t : Table) : List String :=
  let insights := [headerMsg t]
  let insights := (numericIdxs t).foldl (fun acc p =>
    match skewMsg t p with
    | some m => acc ++ [m]
    | none => acc) insights
  let insights := (catIdxs t).foldl (fun acc p =>
    match catMsg t p with
    | some m => acc ++ [m]
    | none => acc) insights
  insights

theorem foldl_optAppend {α : Type} (f : α → Option String) (l : List α) :
    ∀ acc : List String,
      l.foldl (fun acc p =>
        match f p with
        | some m => acc ++ [m]
        | none => acc) acc = acc ++ l.filterMap f := by
  induction l with
  | nil => intro acc; simp
  | cons x xs ih =>
      intro acc
      cases hx : f x with
      | none => simp only [List.foldl_cons, hx, List.filterMap_cons, ih]
      | some m =>
          simp only [List.foldl_cons, hx, List.filterMap_cons, ih,
            List.append_assoc, List.singleton_append]

/-- C7: the insight list is the row/column-count header, followed by the
skew insights of the numeric columns in column order, followed by the
distinct-value insights of the categorical columns; in particular the list
is never empty and the header comes first. -/
theorem generate_insights_structure (t : Table) :
    generate_insights t =
      headerMsg t :: ((numericIdxs t).filterMap (skewMsg t) ++
        (catIdxs t).filterMap (catMsg t)) ∧
    (generate_insights t).head? = some (headerMsg t) ∧
    1 ≤ (generate_insights t).length := by
  have h : generate_insights t =
      headerMsg t :: ((numericIdxs t).filterMap (skewMsg t) ++
        (catIdxs t).filterMap (catMsg t)) := by
    unfold generate_insights
    simp only [foldl_optAppend, List.append_assoc, List.singleton_append,
      List.cons_append, List.nil_append]
  refine ⟨h, ?_, ?_⟩
  · rw [h]
    rfl
  · rw [h]
    simp

/-! ## VisualizerAgent -/

/-- `create_distribution_plots` (visualizer.py lines 15-40): one artifact
per numeric column, keyed by column name, written to the output directory. -/
def create_distribution_plots (t : Table) : List (String × String) :=
  (numericCols t).map (fun c => (c, "outputs/distribution_" ++ c ++ ".png"))

/-- `VisualizerAgent.create_correlation_heatmap` (visualizer.py lines
42-59).  First component: the value returned to the caller (`None` when
fewer than 2 numeric columns).  Second component: the files written to the
artifact sink (the `plt.savefig` effect), empty in the early-return case. -/
def create_correlation_heatmap (t : Table) : Option String × List String :=
  if (numericCols t).length < 2 then (none, [])
  else (some "outputs/correlation_heatmap.png", ["outputs/correlation_heatmap.png"])

/-- `create_summary_report` (visualizer.py lines 61-84): writes the report
and returns its path. -/
def create_summary_report (_stats : Option Stats) (_insights : List String) : String :=
  "outputs/analysis_report.txt"

/-- C8: a heatmap artifact is produced iff the table has at least 2 numeric
columns; with fewer the function returns `None` without error and writes
nothing. -/
theorem create_correlation_heatmap_spec (t : Table) :
    ((create_correlation_heatmap t).1.isSome ↔ 2 ≤ (numericCols t).length) ∧
    ((numericCols t).length < 2 →
      (create_correlation_heatmap t).1 = none ∧
      (create_correlation_heatmap t).2 = []) ∧
    (2 ≤ (numericCols t).length →
      (create_correlation_heatmap t).1 = some "outputs/correlation_heatmap.png" ∧
      (create_correlation_heatmap t).2 = ["outputs/correlation_heatmap.png"]) := by
  by_cases h : (numericCols t).length < 2
  · refine ⟨?_, fun _ => ?_, fun hge => absurd hge (by omega)⟩
    · unfold create_correlation_heatmap
      rw [if_pos h]
      simp
      omega
    · unfold create_correlation_heatmap
      rw [if_pos h]
      exact ⟨rfl, rfl⟩
  · refine ⟨?_, fun hlt => absurd hlt h, fun _ => ?_⟩
    · unfold create_correlation_heatmap
      rw [if_neg h]
      simp
      omega
    · unfold create_correlation_heatmap
      rw [if_neg h]
      exact ⟨rfl, rfl⟩

theorem create_correlation_heatmap_witness :
    (create_correlation_heatmap tEmptyNum).1 = none ∧
    (create_correlation_heatmap tCorr).2 = ["outputs/correlation_heatmap.png"] :=
  ⟨((create_correlation_heatmap_spec tEmptyNum).2.1 (by decide)).1,
   ((create_correlation_heatmap_spec tCorr).2.2 (by decide)).2⟩

/-! ## app.py: the LangGraph pipeline -/

/-- The `visualizations` dict set by `visualization_node`. -/
structure Viz where
  distributions : List (String × String)
  correlation_heatmap : Option String

/-- The `AnalysisState` TypedDict of app.py (lines 12-22).  Fields that
start out as `None` are `Option`s; `messages` is the append-only log. -/
structure AnalysisState where
  raw_data : Table
  cleaned_data : Option Table
  cleaning_metadata : Option CleanMeta
  validation_report : Option ValidationReport
  statistics : Option Stats
  insights : List String
  outliers : List (String × OutlierEntry)
  visualizations : Option Viz
  report_path : String
  messages : List String

/-- `load_data_node` (app.py lines 25-27): appends one log message. -/
def load_data_node (s : AnalysisState) : AnalysisState :=
  { s with messages := s.messages ++ ["✓ Data loaded successfully"] }

/-- `cleaning_node` (app.py lines 30-39).  `clean_data` operates on fresh
frames returned by `drop_duplicates`/`dropna`, so `raw_data` is only read,
never written. -/
def cleaning_node (s : AnalysisState) : AnalysisState :=
  let cleaning_result := clean_data s.raw_data
  { s with
      cleaned_data := some cleaning_result.1
      cleaning_metadata := some cleaning_result.2
      validation_report := some (validate_data cleaning_result.1)
      messages := s.messages ++
        ["✓ Data cleaned: " ++ toString cleaning_result.2.rows_removed ++
          " rows removed"] }

/-- `analysis_node` (app.py lines 42-50). -/
noncomputable def analysis_node (s : AnalysisState) : AnalysisState :=
  let df := s.cleaned_data.getD { cols := [], rows := [] }
  { s with
      statistics := some (compute_statistics df)
      insights := generate_insights df
      outliers := detect_outliers df
      messages := s.messages ++
        ["✓ Analysis complete: " ++ toString (generate_insights df).length ++
          " insights generated"] }

/-- `visualization_node` (app.py lines 53-67). -/
def visualization_node (s : AnalysisState) : AnalysisState :=
  let df := s.cleaned_data.getD { cols := [], rows := [] }
  let dist_plots := create_distribution_plots df
  let heatmap := (create_correlation_heatmap df).1
  { s with
      visualizations := some { distributions := dist_plots
                               correlation_heatmap := heatmap }
      report_path := create_summary_report s.statistics s.insights
      messages := s.messages ++
        ["✓ Visualizations created: " ++ toString dist_plots.length ++
          " plots + heatmap"] }

/-- The nodes added by `create_workflow` (app.py lines 72-75). -/
noncomputable def workflowNodes : List (String × (AnalysisState → AnalysisState)) :=
  [("load_data", load_data_node),
   ("clean_data", cleaning_node),
   ("analyze_data", analysis_node),
   ("visualize_data", visualization_node)]

/-- The edges added by `create_workflow` (app.py lines 77-80), with the
LangGraph END sentinel spelled "END". -/
def workflowEdges : List (String × String) :=
  [("load_data", "clean_data"),
   ("clean_data", "analyze_data"),
   ("analyze_data", "visualize_data"),
   ("visualize_data", "END")]

/-- `set_entry_point` (app.py line 76). -/
def entryPoint : String := "load_data"

/-- One LangGraph superstep.  The node receives the current channel values,
mutates the (aliased) `messages` list in place via `append`, and returns the
full state; this returned-and-mutated state is `f s` here, whose `messages`
field is the input log plus the new entry.  LangGraph then writes the
returned dict back channel by channel: every plain field is a last-value
channel and simply takes the returned value, but `messages` is declared
`Annotated[list, operator.add]` (app.py line 22), so its new value is
`operator.add(channel_value, returned_update)` — and since the channel
value is the very list the node just mutated, the log is concatenated with
itself every superstep. -/
noncomputable def applyNode (f : AnalysisState → AnalysisState)
    (s : AnalysisState) : AnalysisState :=
  let r := f s
  { r with messages := r.messages ++ r.messages }

noncomputable def stepNode (name : String) (s : AnalysisState) : AnalysisState :=
  match workflowNodes.lookup name with
  | some f => applyNode f s
  | none => s

def nextNode (name : String) : Option String := workflowEdges.lookup name

/-- Execution of the compiled graph: run the current node as one superstep
(node function followed by the channel reducers, see `applyNode`), then
follow its out-edge, until END (fuel bounds the walk; 5 suffices for this
graph). -/
noncomputable def runFrom : ℕ → String → AnalysisState → AnalysisState
  | 0, _, s => s
  | Nat.succ fuel, cur, s =>
      if cur = "END" then s
      else
        match nextNode cur with
        | some nxt => runFrom fuel nxt (stepNode cur s)
        | none => stepNode cur s

/-- The node names visited by the same walk, in execution order. -/
def traceFrom : ℕ → String → List String
  | 0, _ => []
  | Nat.succ fuel, cur =>
      if cur = "END" then []
      else
        cur :: (match nextNode cur with
          | some nxt => traceFrom fuel nxt
          | none => [])

/-- `create_workflow().invoke(state)`: execute the compiled graph from the
entry point, applying the channel reducers of `applyNode` at every
superstep. -/
noncomputable def invokeWorkflow (s : AnalysisState) : AnalysisState :=
  runFrom 5 entryPoint s

/-- The log after one superstep whose node appended `m` to the log `l`: the
returned list `l ++ [m]` is combined by `operator.add` with the channel
value, which is that same (aliased, already-mutated) list. -/
def opAddStep (l : List String) (m : String) : List String :=
  (l ++ [m]) ++ (l ++ [m])

/-- C9 (amended): a run of the compiled workflow visits exactly
load → clean → analyze → visualize, once each in that order, and every node
appends exactly one message to the log it receives; but because `messages`
is an `operator.add` channel and each node returns the whole mutated state,
every superstep re-adds the returned log to the channel, so the final log
is the fourfold `opAddStep` iteration — `16·n + 30` entries for `n`
initially supplied messages — and not the initial log plus four messages. -/
theorem workflow_linear_log (s : AnalysisState) :
    traceFrom 5 entryPoint =
      ["load_data", "clean_data", "analyze_data", "visualize_data"] ∧
    invokeWorkflow s =
      applyNode visualization_node (applyNode analysis_node
        (applyNode cleaning_node (applyNode load_data_node s))) ∧
    (∀ u : AnalysisState, (load_data_node u).messages =
      u.messages ++ ["✓ Data loaded successfully"]) ∧
    (∀ u : AnalysisState, (cleaning_node u).messages =
      u.messages ++ ["✓ Data cleaned: " ++
        toString (clean_data u.raw_data).2.rows_removed ++ " rows removed"]) ∧
    (∀ u : AnalysisState, (analysis_node u).messages =
      u.messages ++ ["✓ Analysis complete: " ++
        toString (generate_insights
          (u.cleaned_data.getD { cols := [], rows := [] })).length ++
        " insights generated"]) ∧
    (∀ u : AnalysisState, (visualization_node u).messages =
      u.messages ++ ["✓ Visualizations created: " ++
        toString (create_distribution_plots
          (u.cleaned_data.getD { cols := [], rows := [] })).length ++
        " plots + heatmap"]) ∧
    (invokeWorkflow s).messages =
      opAddStep (opAddStep (opAddStep (opAddStep s.messages
        "✓ Data loaded successfully")
        ("✓ Data cleaned: " ++ toString (clean_data s.raw_data).2.rows_removed ++
          " rows removed"))
        ("✓ Analysis complete: " ++
          toString (generate_insights (clean_data s.raw_data).1).length ++
          " insights generated"))
        ("✓ Visualizations created: " ++
          toString (create_distribution_plots (clean_data s.raw_data).1).length ++
          " plots + heatmap") ∧
    (invokeWorkflow s).messages.length = 16 * s.messages.length + 30 := by
  have hmsg : (invokeWorkflow s).messages =
      opAddStep (opAddStep (opAddStep (opAddStep s.messages
        "✓ Data loaded successfully")
        ("✓ Data cleaned: " ++ toString (clean_data s.raw_data).2.rows_removed ++
          " rows removed"))
        ("✓ Analysis complete: " ++
          toString (generate_insights (clean_data s.raw_data).1).length ++
          " insights generated"))
        ("✓ Visualizations created: " ++
          toString (create_distribution_plots (clean_data s.raw_data).1).length ++
          " plots + heatmap") := rfl
  refine ⟨rfl, rfl, fun u => rfl, fun u => rfl, fun u => rfl, fun u => rfl,
    hmsg, ?_⟩
  rw [hmsg]
  simp only [opAddStep, List.length_append, List.length_cons, List.length_nil]
  omega

/-- The `initial_state` dict of app.py (lines 156-167) with an empty input
table and, as in the source, an empty initial message log. -/
def initState : AnalysisState :=
  { raw_data := { cols := [], rows := [] }
    cleaned_data := none
    cleaning_metadata := none
    validation_report := none
    statistics := none
    insights := []
    outliers := []
    visualizations := none
    report_path := ""
    messages := [] }

/-- C9 (counterexample): invoking the workflow on the initial state leaves
30 entries in the message log — the `operator.add` reducer duplicates the
returned log every superstep — not the 4 the claim asserts. -/
theorem workflow_log_counterexample :
    (invokeWorkflow initState).messages.length = 30 ∧
    initState.messages.length + 4 ≠ (invokeWorkflow initState).messages.length := by
  have h30 : (invokeWorkflow initState).messages.length = 30 := rfl
  refine ⟨h30, ?_⟩
  rw [h30]
  decide

/-- C10: neither `cleaning_node` nor the full pipeline run writes the
`raw_data` field: cleaning operates on the fresh frames returned by
`drop_duplicates`/`dropna` (the in-place column writes hit that copy), so
after a complete run the state still carries the original input table. -/
theorem pipeline_preserves_raw_data (s : AnalysisState) :
    (cleaning_node s).raw_data = s.raw_data ∧
    (invokeWorkflow s).raw_data = s.raw_data :=
  ⟨rfl, rfl⟩
